import Mathlib

set_option maxRecDepth 4000

/-!
Shallow embedding of `django/db/backends/utils.py`: the instrumented cursor
wrappers (`CursorWrapper`, `CursorDebugWrapper`), the text-to-native type
coercion helpers (`typecast_date`, `typecast_time`, `typecast_timestamp`,
`typecast_decimal`, `rev_typecast_decimal`), identifier truncation
(`truncate_name`) and decimal formatting (`format_number`).

Python strings are modelled as Lean `String` / `List Char`; Python `None`
inputs as `Option`; a raised exception as an explicit error value.
Machine floats are modelled exactly as the IEEE-754 binary64 values they
are, each represented by its sign, 53-bit significand and binary exponent,
with explicit round-to-nearest-even at every operation.
-/

namespace DjangoDB

/-! ### Decimal digit characters -/

/-- `c` is one of the ASCII characters `'0'`..`'9'`. -/
def isDigitChar (c : Char) : Bool := 48 ≤ c.toNat && c.toNat ≤ 57

/-- Numeric value of a digit character. -/
def dval (c : Char) : ℕ := c.toNat - 48

/-- The digit character for `n < 10`. -/
def digitChar (n : ℕ) : Char := Char.ofNat (n + 48)

/-- Value of a big-endian decimal digit string (as Python `int` computes it
for a string of plain digits). -/
def digitsToNat : List Char → ℕ
  | [] => 0
  | c :: cs => dval c * 10 ^ cs.length + digitsToNat cs

/-- Decimal digit characters of `n`, most significant first, with an
explicit fuel argument so the definition is structural (and hence reduces
inside the kernel). -/
def natDigitsAux : ℕ → ℕ → List Char
  | 0, _ => []
  | fuel + 1, n =>
    if n < 10 then [digitChar n]
    else natDigitsAux fuel (n / 10) ++ [digitChar (n % 10)]

/-- Decimal digit characters of `n`, most significant first; `['0']` for 0. -/
def natDigits (n : ℕ) : List Char := natDigitsAux (n + 1) n

/-- Decimal rendering of a natural number (Python `str` of an `int ≥ 0`). -/
def natStr (n : ℕ) : String := String.mk (natDigits n)

/-! ### Python `int()` and string splitting -/

/-- Python `int(s)` on a character list: an optional sign followed by at
least one digit.  (Surrounding whitespace and underscore separators, which
Python also accepts, never occur in the inputs of this module and are not
modelled.)  `none` models the raised `ValueError`. -/
def pyIntOfChars (cs : List Char) : Option ℤ :=
  match cs with
  | '-' :: rest =>
    if rest ≠ [] ∧ rest.all isDigitChar then some (-(digitsToNat rest : ℤ)) else none
  | '+' :: rest =>
    if rest ≠ [] ∧ rest.all isDigitChar then some ((digitsToNat rest : ℤ)) else none
  | _ =>
    if cs ≠ [] ∧ cs.all isDigitChar then some ((digitsToNat cs : ℤ)) else none

/-- Python `s.split(sep)` for a single-character separator: splits at every
occurrence, keeping empty fragments. -/
def splitOnChar (sep : Char) : List Char → List (List Char)
  | [] => [[]]
  | c :: cs =>
    match splitOnChar sep cs with
    | [] => [[c]]
    | h :: t => if c = sep then [] :: h :: t else (c :: h) :: t

/-- Python `s.split(sep, 1)`: split at the first occurrence of `sep` only;
`none` when `sep` does not occur. -/
def splitFirstChar (sep : Char) : List Char → Option (List Char × List Char)
  | [] => none
  | c :: cs =>
    if c = sep then some ([], cs)
    else (splitFirstChar sep cs).map (fun p => (c :: p.1, p.2))

/-- Python `s.split()` (no separator): split on whitespace runs, discarding
empty fragments. -/
def splitWhitespace (cs : List Char) : List (List Char) :=
  (List.splitOnP (fun c => c.isWhitespace) cs).filter (fun l => l ≠ [])

/-! ### IEEE-754 binary64 ("Python float") model

A machine float is modelled by the exact value it denotes, written as
`± mant · 2^exp` (`PyFloat`).  Every operation rounds its exact result to
53 significand bits, round to nearest, ties to even — exactly IEEE-754
binary64 arithmetic in the normal range.  (Subnormal underflow, overflow,
infinities and NaNs never arise for the values this module computes and
are not modelled.)  All arithmetic below is plain `ℕ`/`ℤ` arithmetic on
exact fractions, so everything reduces inside the kernel. -/

/-- `⌊log₂ n⌋` via fuel (structural, kernel-reducible); 0 for `n ≤ 1`. -/
def natLog2Aux : ℕ → ℕ → ℕ
  | 0, _ => 0
  | fuel + 1, n => if n < 2 then 0 else natLog2Aux fuel (n / 2) + 1

/-- `⌊log₂ n⌋` for `n ≥ 1`. -/
def natLog2 (n : ℕ) : ℕ := natLog2Aux n n

/-- `2^c ≤ a / b` for an integer exponent `c` and positive naturals. -/
def pow2Le (c : ℤ) (a b : ℕ) : Bool :=
  if 0 ≤ c then 2 ^ c.toNat * b ≤ a else b ≤ a * 2 ^ (-c).toNat

/-- `⌊log₂ (a / b)⌋` for a positive fraction: the bit-length difference of
numerator and denominator brackets it within one, and the candidates are
checked directly. -/
def fracFloorLog2 (a b : ℕ) : ℤ :=
  let g : ℤ := (natLog2 a : ℤ) - (natLog2 b : ℤ)
  if pow2Le (g + 1) a b then g + 1 else if pow2Le g a b then g else g - 1

/-- Round the fraction `a / b` (with `b ≥ 1`) to the nearest natural
number, ties to even. -/
def rheFrac (a b : ℕ) : ℕ :=
  let q := a / b
  let r := a % b
  if 2 * r < b then q else if b < 2 * r then q + 1 else if q % 2 = 0 then q else q + 1

/-- An IEEE-754 binary64 value `± mant · 2^exp` (`sign = true` means
negative). -/
structure PyFloat where
  sign : Bool
  mant : ℕ
  exp : ℤ
deriving DecidableEq, Repr

/-- The float 0.0. -/
def PyFloat.zero : PyFloat := ⟨false, 0, 0⟩

/-- Round the positive fraction `a / b` to a 53-bit significand and its
binary exponent (round to nearest, ties to even). -/
def roundFracToB64 (a b : ℕ) : ℕ × ℤ :=
  let e : ℤ := fracFloorLog2 a b - 52
  let m := if 0 ≤ e then rheFrac a (b * 2 ^ e.toNat) else rheFrac (a * 2 ^ (-e).toNat) b
  (m, e)

/-- The nonnegative binary64 value nearest to `a / b`. -/
def pyFloatOfPosFrac (a b : ℕ) : PyFloat :=
  if a = 0 then .zero
  else
    let p := roundFracToB64 a b
    ⟨false, p.1, p.2⟩

/-- The magnitude of a float as an exact fraction `(num, den)`. -/
def PyFloat.frac (x : PyFloat) : ℕ × ℕ :=
  if 0 ≤ x.exp then (x.mant * 2 ^ x.exp.toNat, 1) else (x.mant, 2 ^ (-x.exp).toNat)

/-- Binary64 multiplication of a float by a natural number: the exact
product rounded back to 53 bits. -/
def pyFloatMulNat (x : PyFloat) (k : ℕ) : PyFloat :=
  let ab := x.frac
  if ab.1 * k = 0 then .zero
  else
    let p := roundFracToB64 (ab.1 * k) ab.2
    ⟨x.sign, p.1, p.2⟩

/-- Binary64 subtraction `x - y`: the exact difference rounded to 53 bits. -/
def pyFloatSub (x y : PyFloat) : PyFloat :=
  let emin := if x.exp ≤ y.exp then x.exp else y.exp
  let nx : ℤ := (if x.sign then -1 else 1) * x.mant * 2 ^ (x.exp - emin).toNat
  let ny : ℤ := (if y.sign then -1 else 1) * y.mant * 2 ^ (y.exp - emin).toNat
  let n := nx - ny
  if n = 0 then .zero
  else
    let p :=
      if 0 ≤ emin then roundFracToB64 (n.natAbs * 2 ^ emin.toNat) 1
      else roundFracToB64 n.natAbs (2 ^ (-emin).toNat)
    ⟨n < 0, p.1, p.2⟩

/-- Python `int(x)` for a float: truncation toward zero. -/
def pyFloatTrunc (x : PyFloat) : ℤ :=
  let ab := x.frac
  if x.sign then -((ab.1 / ab.2 : ℕ) : ℤ) else ((ab.1 / ab.2 : ℕ) : ℤ)

/-! ### Date, time and datetime values (`datetime` module model)

Constructors validate their arguments exactly as CPython's `datetime.date`,
`datetime.time` and `datetime.datetime` do (year 1..9999, month 1..12, day
within the month, hour 0..23, minute/second 0..59, microsecond 0..999999);
`none` models the raised `ValueError`/`TypeError`. -/

/-- Gregorian leap-year rule used by `datetime.date`. -/
def isLeapYear (y : ℕ) : Bool := (y % 4 == 0 && y % 100 != 0) || y % 400 == 0

/-- Days in month `m` of year `y` (`m` assumed 1..12). -/
def daysInMonth (y m : ℕ) : ℕ :=
  if m = 2 then (if isLeapYear y then 29 else 28)
  else if m = 4 ∨ m = 6 ∨ m = 9 ∨ m = 11 then 30
  else 31

structure PyDate where
  year : ℕ
  month : ℕ
  day : ℕ
deriving DecidableEq, Repr

/-- `datetime.date(y, m, d)` with argument validation. -/
def mkPyDate (y m d : ℤ) : Option PyDate :=
  if 1 ≤ y ∧ y ≤ 9999 ∧ 1 ≤ m ∧ m ≤ 12 ∧ 1 ≤ d ∧ d ≤ (daysInMonth y.toNat m.toNat : ℤ) then
    some ⟨y.toNat, m.toNat, d.toNat⟩
  else none

inductive PyTzInfo where
  | utc
deriving DecidableEq, Repr

structure PyTime where
  hour : ℕ
  minute : ℕ
  second : ℕ
  microsecond : ℕ
  tzinfo : Option PyTzInfo
deriving DecidableEq, Repr

/-- `datetime.time(h, mi, s, us, tz)` with argument validation. -/
def mkPyTime (h mi s us : ℤ) (tz : Option PyTzInfo) : Option PyTime :=
  if 0 ≤ h ∧ h ≤ 23 ∧ 0 ≤ mi ∧ mi ≤ 59 ∧ 0 ≤ s ∧ s ≤ 59 ∧ 0 ≤ us ∧ us ≤ 999999 then
    some ⟨h.toNat, mi.toNat, s.toNat, us.toNat, tz⟩
  else none

structure PyDateTime where
  year : ℕ
  month : ℕ
  day : ℕ
  hour : ℕ
  minute : ℕ
  second : ℕ
  microsecond : ℕ
  tzinfo : Option PyTzInfo
deriving DecidableEq, Repr

/-- `datetime.datetime(...)` with argument validation. -/
def mkPyDateTime (y mo d h mi s us : ℤ) (tz : Option PyTzInfo) : Option PyDateTime :=
  match mkPyDate y mo d, mkPyTime h mi s us tz with
  | some date, some time =>
    some ⟨date.year, date.month, date.day, time.hour, time.minute, time.second,
          time.microsecond, time.tzinfo⟩
  | _, _ => none

/-! ### The typecast functions -/

/-- Result of a Python call that can raise: `.ok v` is a normal return,
`.raised` a propagated exception (`ValueError`/`TypeError`/`IndexError`;
the coercion functions re-raise parse errors unmodified, so the exception
kind is not further distinguished). -/
inductive PyRes (α : Type) where
  | ok (v : α)
  | raised
deriving DecidableEq, Repr

/-- Apply a function to the normal-return value of a `PyRes`. -/
def PyRes.map (f : α → β) : PyRes α → PyRes β
  | .ok v => .ok (f v)
  | .raised => .raised

/-- `typecast_date(s)`:
`datetime.date(*map(int, s.split('-'))) if s else None`.
The outer `PyRes` is the raised-exception channel; the inner `Option`
is the Python `None` result. -/
def typecast_date (s : Option String) : PyRes (Option PyDate) :=
  match s with
  | none => .ok none
  | some str =>
    if str = "" then .ok none
    else
      match (splitOnChar '-' str.data).mapM pyIntOfChars with
      | none => .raised
      | some parts =>
        match parts with
        | [y, m, d] =>
          match mkPyDate y m d with
          | some date => .ok (some date)
          | none => .raised
        | _ => .raised

/-- The fractional-seconds split of `typecast_time` / `typecast_timestamp`:
`if '.' in seconds: seconds, microseconds = seconds.split('.')`, with
`microseconds = '0'` when there is no `'.'`.  `none` models the unpacking
`ValueError` when more than one `'.'` is present. -/
def fracSplit (seconds : List Char) : Option (List Char × List Char) :=
  if '.' ∈ seconds then
    match splitOnChar '.' seconds with
    | [a, b] => some (a, b)
    | _ => none
  else some (seconds, ['0'])

/-- `float('.' + ms)` for a digit string `ms`: the decimal value rounded to
the nearest binary64.  (`float` also accepts exponent forms, which never
reach this call site and are not modelled; `none` is the `ValueError` on a
non-digit fraction.) -/
def pyFloatOfFrac (ms : List Char) : Option PyFloat :=
  if ms ≠ [] ∧ ms.all isDigitChar then
    some (pyFloatOfPosFrac (digitsToNat ms) (10 ^ ms.length))
  else none

/-- The microsecond derivation of `typecast_time`:
`int(float('.' + microseconds) * 1000000)` — binary64 multiplication
followed by truncation toward zero. -/
def timeMicroseconds (ms : List Char) : Option ℤ :=
  (pyFloatOfFrac ms).map (fun f => pyFloatTrunc (pyFloatMulNat f 1000000))

/-- `typecast_time(s)`: split on `':'` into exactly three fragments, split
a fractional second part off the third, and build a `datetime.time` with
the float-derived microsecond count and no timezone. -/
def typecast_time (s : Option String) : PyRes (Option PyTime) :=
  match s with
  | none => .ok none
  | some str =>
    if str = "" then .ok none
    else
      match splitOnChar ':' str.data with
      | [hh, mm, ss] =>
        match fracSplit ss with
        | none => .raised
        | some (sec, micro) =>
          match pyIntOfChars hh, pyIntOfChars mm, pyIntOfChars sec, timeMicroseconds micro with
          | some h, some mi, some se, some us =>
            match mkPyTime h mi se us none with
            | some t => .ok (some t)
            | none => .raised
          | _, _, _, _ => .raised
      | _ => .raised

/-- The microsecond derivation of `typecast_timestamp`:
`int((microseconds + '000000')[:6])` — right-pad the fractional digit
string with zeros, truncate to six characters, parse as an integer. -/
def tsMicroseconds (ms : List Char) : Option ℤ :=
  pyIntOfChars ((ms ++ ['0', '0', '0', '0', '0', '0']).take 6)

/-- Result type of `typecast_timestamp`, which returns a `datetime.date`
when the input has no `' '` and a `datetime.datetime` otherwise. -/
inductive DateOrDatetime where
  | date (d : PyDate)
  | datetime (dt : PyDateTime)
deriving DecidableEq, Repr

/-- `typecast_timestamp(s)`.  The global `settings.USE_TZ` flag is threaded
as the explicit `use_tz` argument; the timezone suffix split off the time
part (`t.split('-', 1)` / `t.split('+', 1)`) is discarded, exactly as in
the source. -/
def typecast_timestamp (use_tz : Bool) (s : Option String) :
    PyRes (Option DateOrDatetime) :=
  match s with
  | none => .ok none
  | some str =>
    if str = "" then .ok none
    else if ¬ (' ' ∈ str.data) then
      (typecast_date (some str)).map (fun r => r.map .date)
    else
      match splitWhitespace str.data with
      | [d, t] =>
        -- Extract timezone information, if it exists; it is thrown away.
        let t :=
          if '-' ∈ t then
            match splitFirstChar '-' t with
            | some (before, _) => before
            | none => t
          else if '+' ∈ t then
            match splitFirstChar '+' t with
            | some (before, _) => before
            | none => t
          else t
        let dates := splitOnChar '-' d
        let times := splitOnChar ':' t
        match times[2]? with
        | none => .raised
        | some seconds =>
          match fracSplit seconds with
          | none => .raised
          | some (sec, micro) =>
            match dates[0]?.bind pyIntOfChars, dates[1]?.bind pyIntOfChars,
                  dates[2]?.bind pyIntOfChars, times[0]?.bind pyIntOfChars,
                  times[1]?.bind pyIntOfChars, pyIntOfChars sec, tsMicroseconds micro with
            | some y, some mo, some dd, some h, some mi, some se, some us =>
              match mkPyDateTime y mo dd h mi se us (if use_tz then some .utc else none) with
              | some dt => .ok (some (.datetime dt))
              | none => .raised
            | _, _, _, _, _, _, _ => .raised
      | _ => .raised

/-! ### Arbitrary-precision decimals (`decimal.Decimal` model)

A finite decimal is a sign, a coefficient (the digit string, stored as the
natural number it denotes — CPython strips leading zeros, keeping at least
one digit) and an exponent: the value is `± coeff · 10^exp`. -/

structure PyDecimal where
  sign : Bool
  coeff : ℕ
  exp : ℤ
deriving DecidableEq, Repr

/-- Strip an optional leading `'+'`/`'-'` sign. -/
def parseSign (cs : List Char) : Bool × List Char :=
  match cs with
  | [] => (false, [])
  | c :: rest =>
    if c = '-' then (true, rest) else if c = '+' then (false, rest) else (false, cs)

/-- Split at the first character satisfying `p`: the part before it and,
when found, the part after it. -/
def splitFirstP (p : Char → Bool) : List Char → List Char × Option (List Char)
  | [] => ([], none)
  | c :: cs =>
    if p c then ([], some cs)
    else
      let r := splitFirstP p cs
      (c :: r.1, r.2)

/-- An exponent marker `'e'`/`'E'`. -/
def isExpChar (c : Char) : Bool := c = 'e' ∨ c = 'E'

/-- The digits-and-point body of a decimal literal: `digits`, `digits.`,
`.digits` or `digits.digits`, with at least one digit overall; yields the
coefficient and the (fractional) exponent. -/
def parseDecBody (cs : List Char) : Option (ℕ × ℤ) :=
  match splitOnChar '.' cs with
  | [ip] => if ip ≠ [] ∧ ip.all isDigitChar then some (digitsToNat ip, 0) else none
  | [ip, fp] =>
    if ip ++ fp ≠ [] ∧ ip.all isDigitChar ∧ fp.all isDigitChar then
      some (digitsToNat (ip ++ fp), -(fp.length : ℤ))
    else none
  | _ => none

/-- `decimal.Decimal(s)` on the numeric literal forms
`[+-]? (digits [. digits?] | . digits) ([eE] [+-]? digits)?`.
(`NaN`/`Infinity` forms, surrounding whitespace and underscore separators
never occur in this module's inputs and are not modelled.)  `none` models
the raised `InvalidOperation`. -/
def parseDecChars (cs : List Char) : Option PyDecimal :=
  let sc := parseSign cs
  let body := splitFirstP isExpChar sc.2
  match body.2 with
  | none => (parseDecBody body.1).map (fun p => ⟨sc.1, p.1, p.2⟩)
  | some es =>
    let se := parseSign es
    if se.2 ≠ [] ∧ se.2.all isDigitChar then
      (parseDecBody body.1).map (fun p =>
        ⟨sc.1, p.1,
         p.2 + (if se.1 then -(digitsToNat se.2 : ℤ) else (digitsToNat se.2 : ℤ))⟩)
    else none

/-- Python `'%+d' % k`: sign character always present. -/
def intSignedDigits (k : ℤ) : List Char :=
  if k < 0 then '-' :: natDigits k.natAbs else '+' :: natDigits k.toNat

/-- `str(Decimal)`: CPython's to-scientific-string algorithm — fixed-point
notation when `exp ≤ 0` and the adjusted exponent is above -6, scientific
notation with one leading digit otherwise. -/
def pyDecimalStrChars (d : PyDecimal) : List Char :=
  let ds := natDigits d.coeff
  let nd : ℤ := (ds.length : ℤ)
  let leftdigits := d.exp + nd
  let dotplace := if d.exp ≤ 0 ∧ -6 < leftdigits then leftdigits else 1
  let intpart : List Char :=
    if dotplace ≤ 0 then ['0']
    else if nd ≤ dotplace then ds ++ List.replicate (dotplace - nd).toNat '0'
    else ds.take dotplace.toNat
  let fracpart : List Char :=
    if dotplace ≤ 0 then '.' :: (List.replicate (-dotplace).toNat '0' ++ ds)
    else if nd ≤ dotplace then []
    else '.' :: ds.drop dotplace.toNat
  let exppart : List Char :=
    if leftdigits = dotplace then [] else 'E' :: intSignedDigits (leftdigits - dotplace)
  (if d.sign then ['-'] else []) ++ intpart ++ fracpart ++ exppart

/-- `str(d)` as a Lean string. -/
def pyDecimalStr (d : PyDecimal) : String := String.mk (pyDecimalStrChars d)

/-- `typecast_decimal(s)`: `None` or the empty string give `None`,
everything else is handed to `decimal.Decimal`. -/
def typecast_decimal (s : Option String) : PyRes (Option PyDecimal) :=
  match s with
  | none => .ok none
  | some str =>
    if str = "" then .ok none
    else
      match parseDecChars str.data with
      | some d => .ok (some d)
      | none => .raised

/-- `rev_typecast_decimal(d)`: `None` for `None`, else `str(d)`. -/
def rev_typecast_decimal (d : Option PyDecimal) : Option String :=
  match d with
  | none => none
  | some dec => some (pyDecimalStr dec)

/-- A decimal literal in fixed-point form: optional minus sign, integer
digits, and optionally a point followed by fraction digits. -/
def decLiteral (sgn : Bool) (I : List Char) (F : Option (List Char)) : String :=
  String.mk ((if sgn then ['-'] else []) ++ I ++
    (match F with
     | none => []
     | some f => '.' :: f))

/-! ### `format_number` -/

/-- Left-pad a digit string with zeros to width `k`. -/
def padLeftZeros (k : ℕ) (ds : List Char) : List Char :=
  List.replicate (k - ds.length) '0' ++ ds

/-- `value.quantize(q, context=ctx)` where `q` has exponent `targetExp`
and `ctx` has precision `prec` and the default rounding, ROUND_HALF_EVEN:
round the coefficient to the target exponent; `none` models the
`InvalidOperation` raised when the result needs more than `prec` digits. -/
def decQuantize (d : PyDecimal) (targetExp : ℤ) (prec : ℕ) : Option PyDecimal :=
  let k := d.exp - targetExp
  let c := if 0 ≤ k then d.coeff * 10 ^ k.toNat else rheFrac d.coeff (10 ^ (-k).toNat)
  if (natDigits c).length ≤ prec then some ⟨d.sign, c, targetExp⟩ else none

/-- `"{0:f}".format(d)`: fixed-point rendering of a decimal, no exponent. -/
def decFixedChars (d : PyDecimal) : List Char :=
  let body :=
    if 0 ≤ d.exp then natDigits (d.coeff * 10 ^ d.exp.toNat)
    else
      let m := 10 ^ (-d.exp).toNat
      natDigits (d.coeff / m) ++ '.' :: padLeftZeros (-d.exp).toNat (natDigits (d.coeff % m))
  (if d.sign then ['-'] else []) ++ body

/-- C `"%.*f"` formatting of a binary64 value: the exact value rounded to
`p` decimal places, ties to even, with exactly `p` digits after the point
(and no point at all when `p = 0`). -/
def pyFormatF (p : ℕ) (x : PyFloat) : String :=
  let ab := x.frac
  let n := rheFrac (ab.1 * 10 ^ p) ab.2
  String.mk ((if x.sign then ['-'] else []) ++
    (if p = 0 then natDigits n
     else natDigits (n / 10 ^ p) ++ '.' :: padLeftZeros p (natDigits (n % 10 ^ p))))

/-- The two runtime types `format_number` distinguishes with
`isinstance(value, decimal.Decimal)`. -/
inductive PyNumber where
  | dec (d : PyDecimal)
  | float (x : PyFloat)
deriving DecidableEq, Repr

/-- `format_number(value, max_digits, decimal_places)`: a Decimal is
quantized to `decimal_places` places under a copied (context-scoped)
context whose precision is `max_digits`, then rendered in fixed notation;
any other (float) value is `"%.*f"`-formatted.  `Decimal(".1") **
decimal_places` is the decimal with coefficient 1 and exponent
`-decimal_places` (exact whenever `decimal_places` is below the default
context precision 28, which every caller satisfies) and is modelled as
that exponent directly.  `none` models the raised `InvalidOperation`. -/
def format_number (value : PyNumber) (max_digits decimal_places : ℕ) : Option String :=
  match value with
  | .dec d =>
    (decQuantize d (-(decimal_places : ℤ)) max_digits).map
      (fun q => String.mk (decFixedChars q))
  | .float x => some (pyFormatF decimal_places x)

/-! ### MD5 (model of `hashlib.md5`) and `truncate_name`

The MD5 compression runs on 32-bit words modelled as naturals below
`2^32`, with wrap-around arithmetic written out explicitly. -/

/-- UTF-8 encoding of one character (1 to 4 bytes). -/
def utf8EncodeChar (c : Char) : List ℕ :=
  let n := c.toNat
  if n < 128 then [n]
  else if n < 2048 then [192 + n / 64, 128 + n % 64]
  else if n < 65536 then [224 + n / 4096, 128 + n / 64 % 64, 128 + n % 64]
  else [240 + n / 262144, 128 + n / 4096 % 64, 128 + n / 64 % 64, 128 + n % 64]

/-- Modelled from the spec: `django.utils.encoding.force_bytes` is outside
the excerpt; on a text string it yields the name's byte encoding (UTF-8),
whose hexadecimal digest the spec's identifier-truncation contract refers
to. -/
def force_bytes (s : String) : List ℕ := s.data.flatMap utf8EncodeChar

/-- `2^32`. -/
def M32 : ℕ := 4294967296

/-- 32-bit wrap-around addition. -/
def add32 (a b : ℕ) : ℕ := (a + b) % M32

/-- 32-bit complement of `x < 2^32`. -/
def not32 (x : ℕ) : ℕ := 4294967295 - x

/-- 32-bit left rotation of `x < 2^32` by `s ≤ 32` bits. -/
def rotl32 (x s : ℕ) : ℕ := ((x <<< s) % M32) ||| (x >>> (32 - s))

/-- The 64 MD5 sine-derived round constants. -/
def md5K : List ℕ :=
  [0xd76aa478, 0xe8c7b756, 0x242070db, 0xc1bdceee,
   0xf57c0faf, 0x4787c62a, 0xa8304613, 0xfd469501,
   0x698098d8, 0x8b44f7af, 0xffff5bb1, 0x895cd7be,
   0x6b901122, 0xfd987193, 0xa679438e, 0x49b40821,
   0xf61e2562, 0xc040b340, 0x265e5a51, 0xe9b6c7aa,
   0xd62f105d, 0x02441453, 0xd8a1e681, 0xe7d3fbc8,
   0x21e1cde6, 0xc33707d6, 0xf4d50d87, 0x455a14ed,
   0xa9e3e905, 0xfcefa3f8, 0x676f02d9, 0x8d2a4c8a,
   0xfffa3942, 0x8771f681, 0x6d9d6122, 0xfde5380c,
   0xa4beea44, 0x4bdecfa9, 0xf6bb4b60, 0xbebfbc70,
   0x289b7ec6, 0xeaa127fa, 0xd4ef3085, 0x04881d05,
   0xd9d4d039, 0xe6db99e5, 0x1fa27cf8, 0xc4ac5665,
   0xf4292244, 0x432aff97, 0xab9423a7, 0xfc93a039,
   0x655b59c3, 0x8f0ccc92, 0xffeff47d, 0x85845dd1,
   0x6fa87e4f, 0xfe2ce6e0, 0xa3014314, 0x4e0811a1,
   0xf7537e82, 0xbd3af235, 0x2ad7d2bb, 0xeb86d391]

/-- The MD5 per-round rotation amounts. -/
def md5S : List ℕ :=
  [7, 12, 17, 22, 7, 12, 17, 22, 7, 12, 17, 22, 7, 12, 17, 22,
   5, 9, 14, 20, 5, 9, 14, 20, 5, 9, 14, 20, 5, 9, 14, 20,
   4, 11, 16, 23, 4, 11, 16, 23, 4, 11, 16, 23, 4, 11, 16, 23,
   6, 10, 15, 21, 6, 10, 15, 21, 6, 10, 15, 21, 6, 10, 15, 21]

/-- The MD5 nonlinear function of round `r`. -/
def md5F (r b c d : ℕ) : ℕ :=
  if r < 16 then (b &&& c) ||| (not32 b &&& d)
  else if r < 32 then (d &&& b) ||| (not32 d &&& c)
  else if r < 48 then b ^^^ c ^^^ d
  else c ^^^ (b ||| not32 d)

/-- The message-word index used in round `r`. -/
def md5Idx (r : ℕ) : ℕ :=
  if r < 16 then r
  else if r < 32 then (5 * r + 1) % 16
  else if r < 48 then (3 * r + 5) % 16
  else (7 * r) % 16

/-- One MD5 round on the state `(a, b, c, d)` with message words `X`. -/
def md5Round (X : List ℕ) (st : ℕ × ℕ × ℕ × ℕ) (r : ℕ) : ℕ × ℕ × ℕ × ℕ :=
  let f := (md5F r st.2.1 st.2.2.1 st.2.2.2 + st.1 + md5K.getD r 0 + X.getD (md5Idx r) 0) % M32
  (st.2.2.2, add32 st.2.1 (rotl32 f (md5S.getD r 0)), st.2.1, st.2.2.1)

/-- Process one 16-word block: 64 rounds, then add into the state. -/
def md5Block (st : ℕ × ℕ × ℕ × ℕ) (X : List ℕ) : ℕ × ℕ × ℕ × ℕ :=
  let r := (List.range 64).foldl (fun s i => md5Round X s i) st
  (add32 st.1 r.1, add32 st.2.1 r.2.1, add32 st.2.2.1 r.2.2.1, add32 st.2.2.2 r.2.2.2)

/-- Little-endian 32-bit words from a byte list (length a multiple of 4). -/
def leWords : List ℕ → List ℕ
  | b0 :: b1 :: b2 :: b3 :: rest =>
    (b0 + 256 * b1 + 65536 * b2 + 16777216 * b3) :: leWords rest
  | _ => []

/-- Groups of 16 words. -/
def wordBlocks : List ℕ → List (List ℕ)
  | w0 :: w1 :: w2 :: w3 :: w4 :: w5 :: w6 :: w7 ::
    w8 :: w9 :: w10 :: w11 :: w12 :: w13 :: w14 :: w15 :: rest =>
    [w0, w1, w2, w3, w4, w5, w6, w7, w8, w9, w10, w11, w12, w13, w14, w15] ::
      wordBlocks rest
  | _ => []

/-- The four little-endian bytes of a 32-bit word. -/
def le4 (w : ℕ) : List ℕ := [w % 256, w / 256 % 256, w / 65536 % 256, w / 16777216 % 256]

/-- The eight little-endian bytes of a 64-bit length field. -/
def le8 (n : ℕ) : List ℕ := le4 (n % M32) ++ le4 (n / M32 % M32)

/-- MD5 padding: a `0x80` byte, zeros to 56 mod 64, the bit length. -/
def md5Pad (msg : List ℕ) : List ℕ :=
  msg ++ 128 :: (List.replicate ((120 - (msg.length + 1) % 64) % 64) 0 ++ le8 (8 * msg.length))

/-- A lower-case hexadecimal digit character. -/
def hexChar (n : ℕ) : Char := if n < 10 then digitChar n else Char.ofNat (87 + n)

/-- Two hex digit characters of a byte. -/
def byteHex (b : ℕ) : List Char := [hexChar (b / 16), hexChar (b % 16)]

/-- `hashlib.md5(msg).hexdigest()`: the 32 hex characters of the digest. -/
def md5Hexdigest (msg : List ℕ) : List Char :=
  let st := (wordBlocks (leWords (md5Pad msg))).foldl md5Block
    (0x67452301, 0xefcdab89, 0x98badcfe, 0x10325476)
  (le4 st.1 ++ le4 st.2.1 ++ le4 st.2.2.1 ++ le4 st.2.2.2).flatMap byteHex

/-- Python slice `s[:i]` with a possibly negative bound. -/
def pySliceTo (s : String) (i : ℤ) : String :=
  if 0 ≤ i then String.mk (s.data.take i.toNat)
  else String.mk (s.data.take (s.length - i.natAbs))

/-- `truncate_name(name, length, hash_len)`: identity when `length` is
`None` or the name already fits; otherwise the name sliced to
`length - hash_len` characters followed by the first `hash_len` characters
of the MD5 hex digest of the name's byte encoding. -/
def truncate_name (name : String) (length : Option ℕ) (hash_len : ℕ) : String :=
  match length with
  | none => name
  | some len =>
    if name.length ≤ len then name
    else
      let hsh := (md5Hexdigest (force_bytes name)).take hash_len
      pySliceTo name ((len : ℤ) - (hash_len : ℤ)) ++ String.mk hsh

/-! ### The instrumented cursor (`CursorWrapper`, `CursorDebugWrapper`)

The owning connection's state visible to the wrappers is modelled
explicitly; an underlying cursor call is modelled by its outcome, an
`Except String α` whose error case carries the raised driver exception's
message. -/

/-- One entry of the connection's `queries` log. -/
structure QueryEntry where
  sql : String
  time : String
deriving DecidableEq, Repr

/-- A record emitted through `logger.debug(fmt, extra=...)`: the rendered
message and the structured `extra` fields `duration`, `sql`, `params`. -/
structure LogRecord where
  message : String
  duration : PyFloat
  sql : String
  params : String
deriving DecidableEq, Repr

/-- Connection state as the wrappers see it: the dirty flag, the `queries`
log, the diagnostic records emitted so far, and the backend's
`ops.last_executed_query(cursor, sql, params)` formatter (its opaque
cursor argument is dropped in the model). -/
structure DBState where
  dirty : Bool
  queries : List QueryEntry
  logRecords : List LogRecord
  ops_last_executed_query : String → Option String → String

/-- Modelled from the spec: `set_dirty` lives on the connection object,
outside the excerpt; it marks the connection as carrying pending
uncommitted work ("dirty state reflects attempted mutation"). -/
def DBState.set_dirty (db : DBState) : DBState := { db with dirty := true }

/-- An exception as the caller observes it: either a raw driver exception
or the framework's translated database-error kind (each carrying the
driver's message). -/
inductive PyExc where
  | driver (msg : String)
  | databaseError (msg : String)
deriving DecidableEq, Repr

/-- Modelled from the spec: `wrap_database_errors` is the connection's
scoped error-translation region (outside the excerpt), "mapping
driver-specific exceptions to a stable taxonomy": any driver exception
raised inside it is re-raised as the framework's database-error kind, and
successful results pass through unchanged. -/
def wrap_database_errors : Except String α → Except PyExc α
  | .ok v => .ok v
  | .error m => .error (.databaseError m)

/-- `CursorWrapper.SET_DIRTY_ATTRS`. -/
def SET_DIRTY_ATTRS : List String := ["execute", "executemany", "callproc"]

/-- `CursorWrapper.WRAP_ERROR_ATTRS`. -/
def WRAP_ERROR_ATTRS : List String :=
  ["callproc", "close", "execute", "executemany",
   "fetchone", "fetchmany", "fetchall", "nextset"]

/-- `CursorWrapper.__getattr__(attr)`: the connection state after the
attribute access (dirty-marking happens here, before any call) paired
with the behaviour of the returned capability — the outcome the caller
observes as a function of the underlying cursor call's outcome. -/
def cursorWrapperGetattr (α : Type) (attr : String) (db : DBState) :
    DBState × (Except String α → Except PyExc α) :=
  let db1 := if attr ∈ SET_DIRTY_ATTRS then db.set_dirty else db
  let call : Except String α → Except PyExc α :=
    if attr ∈ WRAP_ERROR_ATTRS then wrap_database_errors
    else fun r =>
      match r with
      | .ok v => .ok v
      | .error m => .error (.driver m)
  (db1, call)

/-- `'%s' % params` for an `execute` params value: Python `None` renders
as `"None"`, any other object is carried by its rendered representation. -/
def paramsRepr : Option String → String
  | none => "None"
  | some p => p

/-- `CursorDebugWrapper.execute(sql, params)`.  The two `time()` readings
are the parameters `start` and `stop`; the underlying
`self.cursor.execute(...)` call (one argument when `params is None`, two
otherwise) is modelled by its outcome `underlying`.  The `finally` block
appends one query-log entry and emits one diagnostic record on every
path, and the caller observes the error-wrapped outcome. -/
def debugExecute (α : Type) (db : DBState) (sql : String) (params : Option String)
    (underlying : Except String α) (start stop : PyFloat) :
    DBState × Except PyExc α :=
  let db := db.set_dirty
  let result := wrap_database_errors underlying
  let duration := pyFloatSub stop start
  let sqlR := db.ops_last_executed_query sql params
  let message :=
    "(" ++ pyFormatF 3 duration ++ ") " ++ sqlR ++ "; args=" ++ paramsRepr params
  let db :=
    { db with
      queries := db.queries ++ [⟨sqlR, pyFormatF 3 duration⟩],
      logRecords := db.logRecords ++ [⟨message, duration, sqlR, paramsRepr params⟩] }
  (db, result)

/-- The `param_list` argument of `executemany`: a sequence (carrying its
elements' rendered representations) or an iterator, on which `len()`
raises `TypeError`. -/
inductive ParamList where
  | ofList (l : List String)
  | iter (r : String)
deriving DecidableEq, Repr

/-- The `times` placeholder logged by `executemany`: `str(len(param_list))`,
or `'?'` when `len` raises. -/
def ParamList.timesStr : ParamList → String
  | .ofList l => natStr l.length
  | .iter _ => "?"

/-- `'%s' % param_list` (a sequence renders like a Python list of its
elements' representations). -/
def ParamList.reprStr : ParamList → String
  | .ofList l => "[" ++ String.intercalate ", " l ++ "]"
  | .iter r => r

/-- `CursorDebugWrapper.executemany(sql, param_list)`: like `execute`, but
the query-log entry records `'%s times: %s' % (times, sql)` with the raw
SQL, and the diagnostic record also carries the raw SQL. -/
def debugExecutemany (α : Type) (db : DBState) (sql : String) (param_list : ParamList)
    (underlying : Except String α) (start stop : PyFloat) :
    DBState × Except PyExc α :=
  let db := db.set_dirty
  let result := wrap_database_errors underlying
  let duration := pyFloatSub stop start
  let message :=
    "(" ++ pyFormatF 3 duration ++ ") " ++ sql ++ "; args=" ++ param_list.reprStr
  let db :=
    { db with
      queries :=
        db.queries ++ [⟨param_list.timesStr ++ " times: " ++ sql, pyFormatF 3 duration⟩],
      logRecords := db.logRecords ++ [⟨message, duration, sql, param_list.reprStr⟩] }
  (db, result)

/-- A sample connection state whose query formatter is the identity on the
SQL text. -/
def dbExample : DBState := ⟨false, [], [], fun s _ => s⟩

/-- A sample connection state whose query formatter visibly rewrites the
SQL text. -/
def dbLEQ : DBState := ⟨false, [], [], fun s _ => "LEQ " ++ s⟩

/-- The string has the shape `⟨digits⟩.⟨exactly three characters⟩` with a
unique point — "formatted to exactly 3 decimal places". -/
def hasThreeDecimals (s : String) : Prop :=
  ∃ a b : List Char, s.data = a ++ '.' :: b ∧ b.length = 3 ∧ '.' ∉ a ∧ '.' ∉ b

end DjangoDB

namespace DjangoDB

/-! ### Digit-string lemmas -/

theorem natDigitsAux_congr : ∀ f g n : ℕ, n < f → n < g → natDigitsAux f n = natDigitsAux g n := by
  intro f
  induction f with
  | zero => intro g n h; exact absurd h (Nat.not_lt_zero n)
  | succ f ih =>
    intro g n hf hg
    cases g with
    | zero => exact absurd hg (Nat.not_lt_zero n)
    | succ g =>
      simp only [natDigitsAux]
      by_cases h10 : n < 10
      · simp [h10]
      · have hpos : 0 < n := by omega
        have hdiv : n / 10 < n := Nat.div_lt_self hpos (by omega)
        simp only [h10, if_false]
        rw [ih g (n / 10) (by omega) (by omega)]

theorem natDigits_lt10 (n : ℕ) (h : n < 10) : natDigits n = [digitChar n] := by
  simp [natDigits, natDigitsAux, h]

theorem natDigits_step (n : ℕ) (h : 10 ≤ n) :
    natDigits n = natDigits (n / 10) ++ [digitChar (n % 10)] := by
  have hdiv : n / 10 < n := Nat.div_lt_self (by omega) (by omega)
  show natDigitsAux (n + 1) n = _
  rw [show natDigitsAux (n + 1) n
        = if n < 10 then [digitChar n]
          else natDigitsAux n (n / 10) ++ [digitChar (n % 10)] from rfl]
  rw [if_neg (by omega)]
  rw [natDigitsAux_congr n (n / 10 + 1) (n / 10) (by omega) (by omega)]
  rfl

theorem digitChar_isDigit : ∀ n : ℕ, n < 10 → isDigitChar (digitChar n) = true := by decide

theorem natDigits_all_digit (n : ℕ) : (natDigits n).all isDigitChar = true := by
  induction n using Nat.strong_induction_on with
  | _ n ih =>
    by_cases h : n < 10
    · rw [natDigits_lt10 n h]
      simp [digitChar_isDigit n h]
    · rw [natDigits_step n (by omega)]
      have hdiv : n / 10 < n := Nat.div_lt_self (by omega) (by omega)
      simp [List.all_append, ih (n / 10) hdiv,
        digitChar_isDigit (n % 10) (Nat.mod_lt n (by omega))]

theorem natDigits_ne_nil (n : ℕ) : natDigits n ≠ [] := by
  by_cases h : n < 10
  · rw [natDigits_lt10 n h]; simp
  · rw [natDigits_step n (by omega)]; simp

theorem natDigits_length_le : ∀ k n : ℕ, 1 ≤ k → n < 10 ^ k → (natDigits n).length ≤ k := by
  intro k
  induction k with
  | zero => omega
  | succ k ih =>
    intro n _ hn
    by_cases h : n < 10
    · rw [natDigits_lt10 n h]; simp
    · rw [natDigits_step n (by omega)]
      have hk : 1 ≤ k := by
        by_contra hk0
        have : k = 0 := by omega
        subst this
        simp [pow_succ, pow_zero] at hn
        omega
      have hdiv : n / 10 < 10 ^ k := by
        have h10 : (10 : ℕ) ^ (k + 1) = 10 ^ k * 10 := by ring
        rw [h10] at hn
        omega
      have := ih (n / 10) hk hdiv
      simp [List.length_append]
      omega

theorem mem_all_digit {c : Char} {l : List Char} (hm : c ∈ l)
    (hall : l.all isDigitChar = true) : isDigitChar c = true := by
  rw [List.all_eq_true] at hall
  exact hall c hm

theorem digit_char_ne_dot {c : Char} (h : isDigitChar c = true) : c ≠ '.' := by
  intro he
  subst he
  simp [isDigitChar] at h

theorem natDigits_not_mem_dot (n : ℕ) : '.' ∉ natDigits n := by
  intro hm
  exact digit_char_ne_dot (mem_all_digit hm (natDigits_all_digit n)) rfl

/-- `digitsToNat` over a trailing digit. -/
theorem digitsToNat_concat (ds : List Char) (d : Char) :
    digitsToNat (ds ++ [d]) = 10 * digitsToNat ds + dval d := by
  induction ds with
  | nil => simp [digitsToNat]
  | cons c cs ih =>
    show dval c * 10 ^ (cs ++ [d]).length + digitsToNat (cs ++ [d])
        = 10 * digitsToNat (c :: cs) + dval d
    rw [ih]
    simp only [digitsToNat, List.length_append, List.length_cons, List.length_nil]
    ring

theorem digit_dval_lt10 : ∀ c : Char, isDigitChar c = true → dval c < 10 := by
  intro c h
  simp [isDigitChar] at h
  simp [dval]
  omega

theorem digitChar_dval {c : Char} (h : isDigitChar c = true) : digitChar (dval c) = c := by
  simp [isDigitChar] at h
  have h48 : dval c + 48 = c.toNat := by simp [dval]; omega
  rw [digitChar, h48, Char.ofNat_toNat]

theorem digit_ne_zero_dval_pos {c : Char} (hd : isDigitChar c = true) (hne : c ≠ '0') :
    1 ≤ dval c := by
  simp [isDigitChar] at hd
  by_contra h0
  have : dval c = 0 := by omega
  have hc : c.toNat = 48 := by simp [dval] at this; omega
  apply hne
  have := Char.ofNat_toNat c
  rw [hc] at this
  exact this.symm ▸ rfl

theorem digitsToNat_pos (ds : List Char) (h1 : ds ≠ []) (h2 : ds.all isDigitChar = true)
    (h3 : ds.head? ≠ some '0') : 1 ≤ digitsToNat ds := by
  match ds with
  | c :: cs =>
    have hc : isDigitChar c = true := mem_all_digit (List.mem_cons_self c cs) h2
    have hne : c ≠ '0' := by
      intro he
      exact h3 (by rw [he]; rfl)
    have := digit_ne_zero_dval_pos hc hne
    have hp : 1 ≤ 10 ^ cs.length := Nat.one_le_pow _ _ (by omega)
    simp only [digitsToNat]
    nlinarith

/-- The digit characters of the number a digit string denotes are the
string itself, provided it has no leading zero. -/
theorem natDigits_digitsToNat (ds : List Char) (h1 : ds ≠ [])
    (h2 : ds.all isDigitChar = true) (h3 : ds.head? ≠ some '0') :
    natDigits (digitsToNat ds) = ds := by
  induction ds using List.reverseRecOn with
  | nil => exact absurd rfl h1
  | append_singleton es d ih =>
    rw [digitsToNat_concat]
    have hd : isDigitChar d = true := mem_all_digit (by simp) h2
    match es, h1 with
    | [], _ =>
      simp only [digitsToNat, Nat.mul_zero, Nat.zero_add]
      rw [natDigits_lt10 (dval d) (digit_dval_lt10 d hd), digitChar_dval hd]
      rfl
    | e :: es', _ =>
      have hes : (e :: es') ≠ [] := by simp
      have h2' : (e :: es').all isDigitChar = true := by
        simp only [List.cons_append, List.all_cons, List.all_append, Bool.and_eq_true] at h2
        simp only [List.all_cons, Bool.and_eq_true]
        exact ⟨h2.1, h2.2.1⟩
      have h3' : (e :: es').head? ≠ some '0' := by
        simpa using h3
      have hpos := digitsToNat_pos (e :: es') hes h2' h3'
      have hv := digit_dval_lt10 d hd
      have hge : 10 ≤ 10 * digitsToNat (e :: es') + dval d := by omega
      rw [natDigits_step _ hge]
      have hq : (10 * digitsToNat (e :: es') + dval d) / 10 = digitsToNat (e :: es') := by
        omega
      have hr : (10 * digitsToNat (e :: es') + dval d) % 10 = dval d := by
        omega
      rw [hq, hr, ih hes h2' h3', digitChar_dval hd]

/-! ### Formatting and digest-shape lemmas -/

theorem pyFormatF3_decimals (x : PyFloat) : hasThreeDecimals (pyFormatF 3 x) := by
  unfold pyFormatF hasThreeDecimals
  refine ⟨(if x.sign then ['-'] else []) ++
        natDigits (rheFrac (x.frac.1 * 10 ^ 3) x.frac.2 / 10 ^ 3),
      padLeftZeros 3 (natDigits (rheFrac (x.frac.1 * 10 ^ 3) x.frac.2 % 10 ^ 3)),
      ?_, ?_, ?_, ?_⟩
  · simp [List.append_assoc]
  · have hlt : rheFrac (x.frac.1 * 10 ^ 3) x.frac.2 % 10 ^ 3 < 10 ^ 3 :=
      Nat.mod_lt _ (by norm_num)
    have hle := natDigits_length_le 3 _ (by norm_num) hlt
    simp only [padLeftZeros, List.length_append, List.length_replicate]
    omega
  · intro hm
    rcases List.mem_append.mp hm with h | h
    · by_cases hs : x.sign <;> simp [hs] at h
    · exact natDigits_not_mem_dot _ h
  · intro hm
    rcases List.mem_append.mp hm with h | h
    · have := List.eq_of_mem_replicate h
      simp at this
    · exact natDigits_not_mem_dot _ h

theorem flatMap_byteHex_length (l : List ℕ) : (l.flatMap byteHex).length = 2 * l.length := by
  induction l with
  | nil => rfl
  | cons b bs ih =>
    simp only [List.flatMap_cons, List.length_append, List.length_cons, ih]
    simp [byteHex]
    omega

theorem md5Hexdigest_length (msg : List ℕ) : (md5Hexdigest msg).length = 32 := by
  unfold md5Hexdigest
  rw [flatMap_byteHex_length]
  simp [le4, List.length_append]

/-- Prepended `'0'` characters do not change the value of a digit string. -/
theorem digitsToNat_zeros_prepend :
    ∀ zs G : List Char, (∀ c ∈ zs, c = '0') → digitsToNat (zs ++ G) = digitsToNat G := by
  intro zs
  induction zs with
  | nil => intro G _; rfl
  | cons z zs ih =>
    intro G hz
    have hz0 : z = '0' := hz z (List.mem_cons_self z zs)
    subst hz0
    have hd0 : dval '0' = 0 := rfl
    show dval '0' * 10 ^ (zs ++ G).length + digitsToNat (zs ++ G) = digitsToNat G
    rw [hd0, ih G (fun c hc => hz c (List.mem_cons_of_mem _ hc))]
    simp

/-! ### Splitting lemmas -/

theorem digit_ne {c d : Char} (h : isDigitChar c = true) (hd : isDigitChar d = false) :
    c ≠ d := by
  intro he
  rw [he, hd] at h
  exact Bool.false_ne_true h

theorem digit_not_exp {c : Char} (h : isDigitChar c = true) : isExpChar c = false := by
  have h1 : c ≠ 'e' := digit_ne h (by decide)
  have h2 : c ≠ 'E' := digit_ne h (by decide)
  simp [isExpChar, h1, h2]

theorem dot_not_mem_digits {l : List Char} (h : l.all isDigitChar = true) : '.' ∉ l := by
  intro hm
  have h1 := mem_all_digit hm h
  have h2 : isDigitChar '.' = false := rfl
  rw [h2] at h1
  exact Bool.false_ne_true h1

theorem splitOnChar_ne_nil (sep : Char) (cs : List Char) : splitOnChar sep cs ≠ [] := by
  cases cs with
  | nil => simp [splitOnChar]
  | cons c cs =>
    simp only [splitOnChar]
    rcases splitOnChar sep cs with _ | ⟨h, t⟩
    · simp
    · by_cases hc : c = sep <;> simp [hc]

theorem splitOnChar_not_mem {sep : Char} :
    ∀ {cs : List Char}, sep ∉ cs → splitOnChar sep cs = [cs] := by
  intro cs
  induction cs with
  | nil => intro _; rfl
  | cons c cs ih =>
    intro h
    have hc : c ≠ sep := fun he => h (by simp [he])
    have hcs : sep ∉ cs := fun hm => h (List.mem_cons_of_mem _ hm)
    simp only [splitOnChar, ih hcs]
    simp [hc]

theorem splitOnChar_append {sep : Char} :
    ∀ {xs : List Char}, sep ∉ xs →
      ∀ ys, splitOnChar sep (xs ++ sep :: ys) = xs :: splitOnChar sep ys := by
  intro xs
  induction xs with
  | nil =>
    intro _ ys
    show splitOnChar sep (sep :: ys) = [] :: splitOnChar sep ys
    simp only [splitOnChar]
    rcases h : splitOnChar sep ys with _ | ⟨h1, t⟩
    · exact absurd h (splitOnChar_ne_nil sep ys)
    · simp
  | cons x xs ih =>
    intro hmem ys
    have hx : x ≠ sep := fun he => hmem (by simp [he])
    have hxs : sep ∉ xs := fun hm => hmem (List.mem_cons_of_mem _ hm)
    show splitOnChar sep (x :: (xs ++ sep :: ys)) = (x :: xs) :: splitOnChar sep ys
    simp only [splitOnChar, ih hxs ys]
    simp [hx]

theorem splitFirstP_no_match (p : Char → Bool) :
    ∀ cs : List Char, (∀ c ∈ cs, p c = false) → splitFirstP p cs = (cs, none) := by
  intro cs
  induction cs with
  | nil => intro _; rfl
  | cons c cs ih =>
    intro h
    have hc := h c (List.mem_cons_self c cs)
    simp only [splitFirstP, hc, Bool.false_eq_true, if_false,
      ih (fun d hd => h d (List.mem_cons_of_mem _ hd))]

theorem dropWhile_head_false (p : Char → Bool) :
    ∀ (l : List Char) (c : Char), (l.dropWhile p).head? = some c → p c = false := by
  intro l
  induction l with
  | nil => intro c h; simp [List.dropWhile] at h
  | cons x xs ih =>
    intro c h
    rw [List.dropWhile_cons] at h
    by_cases hx : p x = true
    · rw [if_pos hx] at h
      exact ih c h
    · rw [if_neg hx] at h
      simp only [List.head?_cons, Option.some.injEq] at h
      subst h
      exact Bool.not_eq_true _ |>.mp hx

/-! ### The decimal parser on canonical literals -/

theorem exp_not_in_fixed {I F : List Char} (hIdig : I.all isDigitChar = true)
    (hFdig : F.all isDigitChar = true) :
    ∀ c ∈ I ++ '.' :: F, isExpChar c = false := by
  intro c hc
  rcases List.mem_append.mp hc with h | h
  · exact digit_not_exp (mem_all_digit h hIdig)
  · rcases List.mem_cons.mp h with h | h
    · subst h; rfl
    · exact digit_not_exp (mem_all_digit h hFdig)

theorem parseDecBody_frac {I F : List Char} (hI : I ≠ [])
    (hIdig : I.all isDigitChar = true) (hFdig : F.all isDigitChar = true) :
    parseDecBody (I ++ '.' :: F) = some (digitsToNat (I ++ F), -(F.length : ℤ)) := by
  unfold parseDecBody
  rw [splitOnChar_append (dot_not_mem_digits hIdig) F,
      splitOnChar_not_mem (dot_not_mem_digits hFdig)]
  have hne : I ++ F ≠ [] := by
    intro h
    exact hI (List.append_eq_nil.mp h).1
  simp [hne, hIdig, hFdig]

theorem parseDecBody_int {I : List Char} (hI : I ≠ [])
    (hIdig : I.all isDigitChar = true) :
    parseDecBody I = some (digitsToNat I, 0) := by
  unfold parseDecBody
  rw [splitOnChar_not_mem (dot_not_mem_digits hIdig)]
  simp [hI, hIdig]

theorem parseSign_unsigned {cs : List Char} {c : Char} (hc : isDigitChar c = true)
    (h : cs.head? = some c) : parseSign cs = (false, cs) := by
  match cs, h with
  | c' :: rest, h =>
    simp only [List.head?_cons, Option.some.injEq] at h
    subst h
    simp only [parseSign]
    rw [if_neg (digit_ne hc (by decide)), if_neg (digit_ne hc (by decide))]

theorem parseDecChars_fracForm (sgn : Bool) (I F : List Char) (hI : I ≠ [])
    (hIdig : I.all isDigitChar = true) (hFdig : F.all isDigitChar = true) :
    parseDecChars ((if sgn then ['-'] else []) ++ I ++ '.' :: F)
        = some ⟨sgn, digitsToNat (I ++ F), -(F.length : ℤ)⟩ := by
  have hsplit := splitFirstP_no_match isExpChar (I ++ '.' :: F) (exp_not_in_fixed hIdig hFdig)
  cases sgn
  · match I, hI, hIdig, hsplit with
    | c :: I', hI2, hIdig2, hsplit2 =>
      have hc : isDigitChar c = true := mem_all_digit (List.mem_cons_self c I') hIdig2
      have hsign : parseSign ((c :: I') ++ '.' :: F) = (false, (c :: I') ++ '.' :: F) :=
        parseSign_unsigned hc rfl
      show parseDecChars ((c :: I') ++ '.' :: F) = _
      unfold parseDecChars
      rw [hsign]
      simp only
      rw [hsplit2]
      simp only
      rw [parseDecBody_frac hI2 hIdig2 hFdig]
      rfl
  · show parseDecChars ('-' :: (I ++ '.' :: F)) = _
    unfold parseDecChars
    have hsign : parseSign ('-' :: (I ++ '.' :: F)) = (true, I ++ '.' :: F) := by
      simp [parseSign]
    rw [hsign]
    simp only
    rw [hsplit]
    simp only
    rw [parseDecBody_frac hI hIdig hFdig]
    rfl

theorem parseDecChars_intForm (sgn : Bool) (I : List Char) (hI : I ≠ [])
    (hIdig : I.all isDigitChar = true) :
    parseDecChars ((if sgn then ['-'] else []) ++ I)
        = some ⟨sgn, digitsToNat I, 0⟩ := by
  have hsplit := splitFirstP_no_match isExpChar I
    (fun c hc => digit_not_exp (mem_all_digit hc hIdig))
  cases sgn
  · match I, hI, hIdig, hsplit with
    | c :: I', hI2, hIdig2, hsplit2 =>
      have hc : isDigitChar c = true := mem_all_digit (List.mem_cons_self c I') hIdig2
      have hsign : parseSign (c :: I') = (false, c :: I') := parseSign_unsigned hc rfl
      show parseDecChars (c :: I') = _
      unfold parseDecChars
      rw [hsign]
      simp only
      rw [hsplit2]
      simp only
      rw [parseDecBody_int hI2 hIdig2]
      rfl
  · show parseDecChars ('-' :: I) = _
    unfold parseDecChars
    have hsign : parseSign ('-' :: I) = (true, I) := by simp [parseSign]
    rw [hsign]
    simp only
    rw [hsplit]
    simp only
    rw [parseDecBody_int hI hIdig]
    rfl

/-! ### The decimal printer on canonical values -/

theorem pyDecimalStr_intForm (sgn : Bool) (I : List Char) (hI : I ≠ [])
    (hIdig : I.all isDigitChar = true)
    (hlead : I.head? ≠ some '0' ∨ I = ['0']) :
    pyDecimalStrChars ⟨sgn, digitsToNat I, 0⟩ = (if sgn then ['-'] else []) ++ I := by
  have hds : natDigits (digitsToNat I) = I := by
    rcases hlead with hhd | h0
    · exact natDigits_digitsToNat I hI hIdig hhd
    · subst h0
      rfl
  have ha : 1 ≤ I.length := List.length_pos.mpr hI
  simp only [pyDecimalStrChars, hds]
  have hc1 : ((0 : ℤ) ≤ 0 ∧ (-6 : ℤ) < 0 + (I.length : ℤ)) := ⟨le_refl 0, by omega⟩
  rw [if_pos hc1]
  have hc2 : ¬((0 : ℤ) + (I.length : ℤ) ≤ 0) := by omega
  rw [if_neg hc2, if_neg hc2]
  have hc3 : ((I.length : ℤ) ≤ 0 + (I.length : ℤ)) := by omega
  rw [if_pos hc3, if_pos hc3, if_pos rfl]
  have htz : ((0 : ℤ) + (I.length : ℤ) - (I.length : ℤ)).toNat = 0 := by omega
  rw [htz]
  simp

theorem pyDecimalStr_fracForm (sgn : Bool) (I F : List Char) (hI : I ≠ [])
    (hIdig : I.all isDigitChar = true) (hFdig : F.all isDigitChar = true) (hF : F ≠ [])
    (hlead : I.head? ≠ some '0' ∨ I = ['0'])
    (hmag : (-6 : ℤ) < -(F.length : ℤ) + ((natDigits (digitsToNat (I ++ F))).length : ℤ)) :
    pyDecimalStrChars ⟨sgn, digitsToNat (I ++ F), -(F.length : ℤ)⟩
        = (if sgn then ['-'] else []) ++ I ++ '.' :: F := by
  have ha : 1 ≤ I.length := List.length_pos.mpr hI
  have hb : 1 ≤ F.length := List.length_pos.mpr hF
  rcases hlead with hhd | h0
  · -- the integer part carries no leading zero: the digit string of the
    -- coefficient is I ++ F itself
    have hne : I ++ F ≠ [] := fun h => hI (List.append_eq_nil.mp h).1
    have hall : (I ++ F).all isDigitChar = true := by
      simp [List.all_append, hIdig, hFdig]
    have hhd2 : (I ++ F).head? ≠ some '0' := by
      match I, hI, hhd with
      | c :: I', _, hhd => simpa using hhd
    have hds := natDigits_digitsToNat (I ++ F) hne hall hhd2
    simp only [pyDecimalStrChars, hds, List.length_append]
    have hc1 : (-(F.length : ℤ) ≤ 0 ∧
        (-6 : ℤ) < -(F.length : ℤ) + ((I.length + F.length : ℕ) : ℤ)) := by
      constructor
      · omega
      · push_cast
        omega
    rw [if_pos hc1]
    have hc2 : ¬(-(F.length : ℤ) + ((I.length + F.length : ℕ) : ℤ) ≤ 0) := by
      push_cast
      omega
    rw [if_neg hc2, if_neg hc2]
    have hc3 : ¬(((I.length + F.length : ℕ) : ℤ)
        ≤ -(F.length : ℤ) + ((I.length + F.length : ℕ) : ℤ)) := by
      push_cast
      omega
    rw [if_neg hc3, if_neg hc3, if_pos rfl]
    have htn : ((-(F.length : ℤ)) + ((I.length + F.length : ℕ) : ℤ)).toNat = I.length := by
      push_cast
      omega
    rw [htn, List.take_left, List.drop_left]
    simp
  · -- integer part "0": the coefficient is the fraction stripped of its
    -- leading zeros
    subst h0
    have hval : digitsToNat (['0'] ++ F) = digitsToNat F :=
      digitsToNat_zeros_prepend ['0'] F (by intro c hc; simpa using hc)
    have hFdec : F.takeWhile (fun c => c == '0') ++ F.dropWhile (fun c => c == '0') = F :=
      List.takeWhile_append_dropWhile (fun c => c == '0') F
    have hzs : ∀ c ∈ F.takeWhile (fun c => c == '0'), c = '0' := by
      intro c hc
      have := List.mem_takeWhile_imp hc
      simpa using this
    have hvalG : digitsToNat F = digitsToNat (F.dropWhile (fun c => c == '0')) := by
      conv_lhs => rw [← hFdec]
      exact digitsToNat_zeros_prepend _ _ hzs
    rw [show (['0'] : List Char) ++ F = '0' :: F from rfl] at hval hmag ⊢
    rw [hval, hvalG] at hmag ⊢
    by_cases hG : F.dropWhile (fun c => c == '0') = []
    · -- the fraction is all zeros; the coefficient is 0
      rw [hG] at hmag ⊢
      have hFz : ∀ c ∈ F, c = '0' := by
        intro c hc
        rw [← hFdec] at hc
        rcases List.mem_append.mp hc with h | h
        · exact hzs c h
        · rw [hG] at h
          simp at h
      have hFrep : F = List.replicate F.length '0' :=
        List.eq_replicate_iff.mpr ⟨rfl, hFz⟩
      have h0 : digitsToNat ([] : List Char) = 0 := rfl
      rw [h0] at hmag ⊢
      have hnd : natDigits 0 = ['0'] := rfl
      rw [hnd] at hmag
      simp only [pyDecimalStrChars, hnd]
      simp only [List.length_singleton]
      have hc1 : (-(F.length : ℤ) ≤ 0 ∧ (-6 : ℤ) < -(F.length : ℤ) + ((1 : ℕ) : ℤ)) := by
        refine ⟨by omega, ?_⟩
        simpa using hmag
      rw [if_pos hc1]
      have hc2 : (-(F.length : ℤ) + ((1 : ℕ) : ℤ) ≤ 0) := by
        push_cast
        omega
      rw [if_pos hc2, if_pos hc2]
      have htn : (-((-(F.length : ℤ)) + ((1 : ℕ) : ℤ))).toNat = F.length - 1 := by
        push_cast
        omega
      rw [if_pos rfl, htn]
      have hrep : List.replicate (F.length - 1) '0' ++ ['0']
          = List.replicate F.length '0' := by
        rw [← List.replicate_succ']
        congr 1
        omega
      rw [hrep, ← hFrep]
      simp
    · -- the fraction has a nonzero digit; the coefficient's digit string
      -- is the fraction with its leading zeros stripped
      have hGhd : (F.dropWhile (fun c => c == '0')).head? ≠ some '0' := by
        intro h
        have := dropWhile_head_false (fun c => c == '0') F '0' h
        simp at this
      have hGdig : (F.dropWhile (fun c => c == '0')).all isDigitChar = true := by
        rw [List.all_eq_true]
        intro c hc
        have hcF : c ∈ F := by
          rw [← hFdec]
          exact List.mem_append.mpr (Or.inr hc)
        exact mem_all_digit hcF hFdig
      have hdsG := natDigits_digitsToNat _ hG hGdig hGhd
      rw [hdsG] at hmag
      have hzlen : (F.takeWhile (fun c => c == '0')).length
          + (F.dropWhile (fun c => c == '0')).length = F.length := by
        conv_rhs => rw [← hFdec]
        rw [List.length_append]
      simp only [pyDecimalStrChars, hdsG]
      have hc1 : (-(F.length : ℤ) ≤ 0 ∧ (-6 : ℤ)
          < -(F.length : ℤ) + ((F.dropWhile (fun c => c == '0')).length : ℤ)) :=
        ⟨by omega, hmag⟩
      rw [if_pos hc1]
      have hc2 : (-(F.length : ℤ) + ((F.dropWhile (fun c => c == '0')).length : ℤ) ≤ 0) := by
        omega
      rw [if_pos hc2, if_pos hc2]
      have htn : (-((-(F.length : ℤ))
          + ((F.dropWhile (fun c => c == '0')).length : ℤ))).toNat
          = (F.takeWhile (fun c => c == '0')).length := by
        omega
      rw [if_pos rfl, htn]
      have hrep : List.replicate (F.takeWhile (fun c => c == '0')).length '0'
          = F.takeWhile (fun c => c == '0') :=
        (List.eq_replicate_iff.mpr ⟨rfl, hzs⟩).symm
      rw [hrep, hFdec]
      simp

/-! ### The claims -/

/-- C1: for every attribute name in `{execute, executemany, callproc}`,
the attribute access on the instrumented cursor marks the owning
connection dirty before the underlying call happens — so the connection is
dirty whatever the call's outcome — and when the underlying call raises a
driver exception, the caller observes the translated database-error kind,
not the raw driver exception. -/
theorem dirty_before_call_and_translated (attr : String) (h : attr ∈ SET_DIRTY_ATTRS)
    (α : Type) (db : DBState) :
    (cursorWrapperGetattr α attr db).1.dirty = true ∧
    ∀ m : String,
      (cursorWrapperGetattr α attr db).2 (.error m) = .error (.databaseError m) := by
  have hw : attr ∈ WRAP_ERROR_ATTRS := by
    simp only [SET_DIRTY_ATTRS, List.mem_cons, List.not_mem_nil, or_false] at h
    rcases h with h | h | h <;> subst h <;> decide
  constructor
  · simp [cursorWrapperGetattr, h, DBState.set_dirty]
  · intro m
    simp [cursorWrapperGetattr, hw, wrap_database_errors]

/-- C1 witness: the `execute` attribute on a concrete clean connection. -/
theorem dirty_before_call_and_translated_witness :
    (cursorWrapperGetattr Unit "execute" dbExample).1.dirty = true ∧
    (cursorWrapperGetattr Unit "execute" dbExample).2 (.error "boom")
      = .error (.databaseError "boom") := by
  have h := dirty_before_call_and_translated "execute" (by decide) Unit dbExample
  exact ⟨h.1, h.2 "boom"⟩

/-- C2: whatever the underlying `execute` outcome, the debug wrapper's
guaranteed-execution cleanup appends exactly one query-log entry (whose
time field is the duration formatted to exactly 3 decimal places) and
emits exactly one diagnostic record; when the underlying call raised, the
caller then observes the translated database error. -/
theorem debug_execute_cleanup_on_failure (α : Type) (db : DBState) (sql : String)
    (params : Option String) (underlying : Except String α) (start stop : PyFloat) :
    (debugExecute α db sql params underlying start stop).1.queries.length
        = db.queries.length + 1 ∧
    (debugExecute α db sql params underlying start stop).1.logRecords.length
        = db.logRecords.length + 1 ∧
    (debugExecute α db sql params underlying start stop).1.queries.getLast?
        = some ⟨db.ops_last_executed_query sql params,
                pyFormatF 3 (pyFloatSub stop start)⟩ ∧
    hasThreeDecimals (pyFormatF 3 (pyFloatSub stop start)) ∧
    ∀ m : String, underlying = .error m →
      (debugExecute α db sql params underlying start stop).2
          = .error (.databaseError m) := by
  refine ⟨by simp [debugExecute, DBState.set_dirty], by simp [debugExecute, DBState.set_dirty],
    ?_, pyFormatF3_decimals _, ?_⟩
  · simp [debugExecute, DBState.set_dirty]
  · intro m hm
    subst hm
    rfl

/-- C2 witness: a failing `execute` on a concrete connection. -/
theorem debug_execute_cleanup_on_failure_witness :
    (debugExecute Unit dbExample "SELECT 1" none (.error "boom") PyFloat.zero
        ⟨false, 1, 0⟩).2 = .error (.databaseError "boom") ∧
    (debugExecute Unit dbExample "SELECT 1" none (.error "boom") PyFloat.zero
        ⟨false, 1, 0⟩).1.queries.length = 1 := by
  have h := debug_execute_cleanup_on_failure Unit dbExample "SELECT 1" none
    (.error "boom") PyFloat.zero ⟨false, 1, 0⟩
  refine ⟨h.2.2.2.2 "boom" rfl, ?_⟩
  have h1 := h.1
  simpa [dbExample] using h1

/-- C3 counterexample: on a connection whose `ops.last_executed_query`
formatter visibly rewrites the SQL, `executemany` records
`"1 times: Q"` — not the formatter's output `"LEQ Q"` — so the claim that
both operations record the formatter's rendering is false. -/
theorem executemany_sql_not_from_formatter :
    (debugExecutemany Unit dbLEQ "Q" (.ofList ["p"]) (.ok ()) PyFloat.zero
        ⟨false, 1, 0⟩).1.queries = [⟨"1 times: Q", "1.000"⟩] ∧
    dbLEQ.ops_last_executed_query "Q" (some "p") = "LEQ Q" ∧
    ("1 times: Q" : String) ≠ "LEQ Q" := by
  refine ⟨by decide, rfl, by decide⟩

/-- C3 amended: in debug mode `execute` records as its query-log `sql`
field the output of the connection's `ops.last_executed_query` formatter,
while `executemany` records `"<N> times: <sql>"` built from the raw,
pre-binding SQL (`N` the parameter-list length, or `?` when it has none). -/
theorem query_log_sql_fields (α : Type) (db : DBState) (sql : String)
    (params : Option String) (pl : ParamList) (u1 u2 : Except String α)
    (start stop : PyFloat) :
    (debugExecute α db sql params u1 start stop).1.queries
        = db.queries ++ [⟨db.ops_last_executed_query sql params,
            pyFormatF 3 (pyFloatSub stop start)⟩] ∧
    (debugExecutemany α db sql pl u2 start stop).1.queries
        = db.queries ++ [⟨pl.timesStr ++ " times: " ++ sql,
            pyFormatF 3 (pyFloatSub stop start)⟩] :=
  ⟨rfl, rfl⟩

/-- C4: `typecast_timestamp` on `"2005-07-29 15:48:00.590358-05"` yields
the datetime 2005-07-29 15:48:00 with 590358 microseconds, UTC-tagged
exactly when the global `USE_TZ` flag is set; the `"-05"` suffix is split
off but never applied numerically — replacing it by `"-08"` changes
nothing. -/
theorem timestamp_example_offset_discarded (use_tz : Bool) :
    typecast_timestamp use_tz (some "2005-07-29 15:48:00.590358-05")
        = .ok (some (.datetime ⟨2005, 7, 29, 15, 48, 0, 590358,
            if use_tz then some .utc else none⟩)) ∧
    typecast_timestamp use_tz (some "2005-07-29 15:48:00.590358-05")
        = typecast_timestamp use_tz (some "2005-07-29 15:48:00.590358-08") := by
  cases use_tz <;> exact ⟨by decide, by decide⟩

/-- C5: `typecast_time "15:48:00.590358"` is the time 15:48:00 with
exactly 590358 microseconds and no timezone, the microseconds coming from
`int(float('.590358') * 1000000)` — binary64 multiplication truncated by
integer conversion. -/
theorem time_example_float_microseconds :
    typecast_time (some "15:48:00.590358") = .ok (some ⟨15, 48, 0, 590358, none⟩) ∧
    timeMicroseconds "590358".data = some 590358 ∧
    timeMicroseconds "590358".data
        = some (pyFloatTrunc (pyFloatMulNat (pyFloatOfPosFrac 590358 1000000) 1000000)) := by
  refine ⟨by decide, by decide, by decide⟩

/-- C6 counterexample: on the fractional string `"3"` named by the claim,
the two microsecond derivations agree — both produce 300000 — so `"3"` is
not an input on which they differ. -/
theorem microsecond_algorithms_agree_on_3 :
    timeMicroseconds "3".data = some 300000 ∧
    tsMicroseconds "3".data = some 300000 ∧
    typecast_time (some "00:00:00.3") = .ok (some ⟨0, 0, 0, 300000, none⟩) ∧
    typecast_timestamp false (some "2005-07-29 00:00:00.3")
        = .ok (some (.datetime ⟨2005, 7, 29, 0, 0, 0, 300000, none⟩)) := by
  refine ⟨by decide, by decide, by decide, by decide⟩

/-- C6 amended: the float-multiplication derivation of `typecast_time` and
the pad-and-truncate derivation of `typecast_timestamp` are not
extensionally equal: on the fractional string `"0157"` (second-fragment
`"00.0157"`) the former gives 15699 and the latter 15700. -/
theorem microsecond_algorithms_differ :
    timeMicroseconds "0157".data = some 15699 ∧
    tsMicroseconds "0157".data = some 15700 ∧
    timeMicroseconds "0157".data ≠ tsMicroseconds "0157".data ∧
    typecast_time (some "00:00:00.0157") = .ok (some ⟨0, 0, 0, 15699, none⟩) ∧
    typecast_timestamp false (some "2005-07-29 00:00:00.0157")
        = .ok (some (.datetime ⟨2005, 7, 29, 0, 0, 0, 15700, none⟩)) := by
  refine ⟨by decide, by decide, by decide, by decide, by decide⟩

/-- C7: on `None` and on the empty string, every coercion function
returns `None` (and decimal-to-text on `None` returns `None`). -/
theorem coercions_none_on_empty (s : Option String) (h : s = none ∨ s = some "") :
    typecast_date s = .ok none ∧ typecast_time s = .ok none ∧
    (∀ b : Bool, typecast_timestamp b s = .ok none) ∧
    typecast_decimal s = .ok none ∧ rev_typecast_decimal none = none := by
  rcases h with h | h <;> subst h
  · exact ⟨rfl, rfl, fun _ => rfl, rfl, rfl⟩
  · exact ⟨by decide, by decide, fun b => by cases b <;> decide, by decide, rfl⟩

/-- C7 witness: the empty string. -/
theorem coercions_none_on_empty_witness :
    typecast_date (some "") = .ok none ∧ typecast_time (some "") = .ok none ∧
    (∀ b : Bool, typecast_timestamp b (some "") = .ok none) ∧
    typecast_decimal (some "") = .ok none ∧ rev_typecast_decimal none = none :=
  coercions_none_on_empty (some "") (Or.inr rfl)

/-- C8 counterexample: with `hash_width = 40` — larger than the 32-character
hex digest but still at most `max_length = 50` — `truncate_name` on a
60-character name returns a string of length 42, not `max_length`. -/
theorem truncate_name_length_not_max :
    (truncate_name (String.mk (List.replicate 60 'x')) (some 50) 40).length = 42 ∧
    (40 : ℕ) ≤ 50 ∧ (42 : ℕ) ≠ 50 := by
  refine ⟨by decide, by decide, by decide⟩

/-- C8 amended: `truncate_name` is the identity when `length` is `None` or
the name fits; otherwise, provided `hash_len ≤ length` and `hash_len` is
at most the 32-character digest length, the result has length exactly
`length` and consists of the first `length - hash_len` characters of the
name followed by the first `hash_len` characters of the MD5 hex digest of
the name's byte encoding; repeated calls agree. -/
theorem truncate_name_spec (name : String) (len hash_len : ℕ) :
    truncate_name name none hash_len = name ∧
    (name.length ≤ len → truncate_name name (some len) hash_len = name) ∧
    (hash_len ≤ len → len < name.length → hash_len ≤ 32 →
      (truncate_name name (some len) hash_len).length = len ∧
      truncate_name name (some len) hash_len
          = String.mk (name.data.take (len - hash_len))
            ++ String.mk ((md5Hexdigest (force_bytes name)).take hash_len)) ∧
    truncate_name name (some len) hash_len = truncate_name name (some len) hash_len := by
  refine ⟨rfl, ?_, ?_, rfl⟩
  · intro hfit
    simp [truncate_name, hfit]
  · intro h1 h2 h3
    have hnn : (0 : ℤ) ≤ (len : ℤ) - (hash_len : ℤ) := by omega
    have ht : ((len : ℤ) - (hash_len : ℤ)).toNat = len - hash_len := by omega
    have heq : truncate_name name (some len) hash_len
        = String.mk (name.data.take (len - hash_len))
          ++ String.mk ((md5Hexdigest (force_bytes name)).take hash_len) := by
      simp only [truncate_name, pySliceTo]
      rw [if_neg (by omega), if_pos hnn, ht]
    refine ⟨?_, heq⟩
    rw [heq, String.length_append]
    show (name.data.take (len - hash_len)).length
        + ((md5Hexdigest (force_bytes name)).take hash_len).length = len
    rw [List.length_take, List.length_take, md5Hexdigest_length]
    have hl : name.data.length = name.length := rfl
    omega

/-- C8 witness: `"x" * 50` truncated to 20 with hash width 4 has length
exactly 20. -/
theorem truncate_name_spec_witness :
    (4 : ℕ) ≤ 20 ∧ 20 < (String.mk (List.replicate 50 'x')).length ∧ (4 : ℕ) ≤ 32 ∧
    (truncate_name (String.mk (List.replicate 50 'x')) (some 20) 4).length = 20 := by
  refine ⟨by decide, by decide, by decide, ?_⟩
  exact ((truncate_name_spec (String.mk (List.replicate 50 'x')) 20 4).2.2.1
    (by decide) (by decide) (by decide)).1

/-- C10: text → Decimal → text is the identity on decimal literals in
canonical fixed-point form — an optional minus sign, an integer digit part
with no leading zero (or exactly `"0"`), and a fraction part, provided the
value is large enough to print in fixed notation (adjusted exponent above
-6); likewise for pure integer literals.  Instantiated at `"3.14"` this is
the spec's `coerce_decimal_to_text(coerce_decimal_from_text("3.14")) ==
"3.14"`. -/
theorem decimal_roundtrip (sgn : Bool) (I F : List Char) (hI : I ≠ [])
    (hIdig : I.all isDigitChar = true) (hFdig : F.all isDigitChar = true) (hF : F ≠ [])
    (hlead : I.head? ≠ some '0' ∨ I = ['0'])
    (hmag : (-6 : ℤ) < -(F.length : ℤ) + ((natDigits (digitsToNat (I ++ F))).length : ℤ)) :
    (∃ d : PyDecimal, typecast_decimal (some (decLiteral sgn I (some F))) = .ok (some d) ∧
        rev_typecast_decimal (some d) = some (decLiteral sgn I (some F))) ∧
    (∃ d : PyDecimal, typecast_decimal (some (decLiteral sgn I none)) = .ok (some d) ∧
        rev_typecast_decimal (some d) = some (decLiteral sgn I none)) := by
  constructor
  · refine ⟨⟨sgn, digitsToNat (I ++ F), -(F.length : ℤ)⟩, ?_, ?_⟩
    · have hparse := parseDecChars_fracForm sgn I F hI hIdig hFdig
      have hempty : decLiteral sgn I (some F) ≠ "" := by
        intro h
        have hd := congrArg String.data h
        simp [decLiteral] at hd
      have hdata : (decLiteral sgn I (some F)).data
          = (if sgn then ['-'] else []) ++ I ++ '.' :: F := rfl
      simp only [typecast_decimal]
      rw [if_neg hempty, hdata, hparse]
    · simp only [rev_typecast_decimal, pyDecimalStr]
      rw [pyDecimalStr_fracForm sgn I F hI hIdig hFdig hF hlead hmag]
      rfl
  · refine ⟨⟨sgn, digitsToNat I, 0⟩, ?_, ?_⟩
    · have hparse := parseDecChars_intForm sgn I hI hIdig
      have hempty : decLiteral sgn I none ≠ "" := by
        intro h
        have hd := congrArg String.data h
        simp [decLiteral] at hd
        exact hI hd.2
      have hdata : (decLiteral sgn I none).data
          = (if sgn then ['-'] else []) ++ I := by
        show ((if sgn then ['-'] else []) ++ I ++ []) = _
        simp
      simp only [typecast_decimal]
      rw [if_neg hempty, hdata, hparse]
    · simp only [rev_typecast_decimal, pyDecimalStr]
      rw [pyDecimalStr_intForm sgn I hI hIdig hlead]
      simp [decLiteral]

/-- C10 witness: the round trip at `"3.14"`. -/
theorem decimal_roundtrip_witness :
    ∃ d : PyDecimal, typecast_decimal (some "3.14") = .ok (some d) ∧
      rev_typecast_decimal (some d) = some "3.14" := by
  have h := (decimal_roundtrip false ['3'] ['1', '4'] (by decide) (by decide) (by decide)
    (by decide) (Or.inl (by decide)) (by decide)).1
  have he : decLiteral false ['3'] (some ['1', '4']) = "3.14" := by decide
  rw [he] at h
  exact h

/-- C9: `format_number(Decimal("3.14159"), 3, 1)` is `"3.1"`: the value is
quantized under the context-scoped precision 3 to one decimal place
(coefficient 31, exponent -1) and rendered in fixed notation. -/
theorem format_number_example :
    parseDecChars "3.14159".data = some ⟨false, 314159, -5⟩ ∧
    decQuantize ⟨false, 314159, -5⟩ (-1) 3 = some ⟨false, 31, -1⟩ ∧
    format_number (.dec ⟨false, 314159, -5⟩) 3 1 = some "3.1" := by
  refine ⟨by decide, by decide, by decide⟩

end DjangoDB
